import Mathlib

/-!
Verification of the DGIndexNV index-file parser, in-place patcher and
indexing cache of `encode_framework/encode/idx/dgindexnv.py`.

The Python code is shallowly embedded: a file's text content is a list of
lines, each line a list of characters (`Str`); Python exceptions become an
explicit error type `PyErr` threaded through `Except`; the in-place file
patcher becomes a pure state transformer on the file content.
-/

namespace DG

/-- A Python string, modelled as its list of characters. -/
abbrev Str := List Char

/-- The Python exceptions that can escape the embedded functions.
`corrupted` stands for the error raised by `ExternalIndexer.file_corrupted`
(the spec's `CorruptedIndexError`); the others are the builtin Python
exceptions of the same name. -/
inductive PyErr where
  | corrupted
  | valueError
  | indexError
  | typeError
  | zeroDivision
deriving DecidableEq, Repr

/-- `Except` as a sum, to derive decidable equality for it. -/
def exceptToSum : Except ε α → ε ⊕ α
  | .error e => .inl e
  | .ok a => .inr a

instance [DecidableEq ε] [DecidableEq α] : DecidableEq (Except ε α) := fun x y =>
  decidable_of_iff (exceptToSum x = exceptToSum y)
    (by cases x <;> cases y <;> simp [exceptToSum])

/-- Python `lst[i]` with Python's negative-index semantics:
a negative `i` counts from the end of the list. -/
def pyGetI (l : List α) (i : Int) : Option α :=
  if i < 0 then
    if (l.length : Int) + i < 0 then none else l.get? ((l.length : Int) + i).toNat
  else l.get? i.toNat

/-- Python slice `lst[:k]` (upper bound only), including the clamping of a
negative `k` to `len(lst) + k`. -/
def pySliceTo (l : List α) (k : Int) : List α :=
  if k < 0 then l.take ((l.length : Int) + k).toNat else l.take k.toNat

/-- Python slice `lst[-n:]`. -/
def pyLastN (l : List α) (n : Nat) : List α := l.drop (l.length - n)

/-- Parse a nonempty all-digit string as a natural number. -/
def parseNatDigits (s : Str) : Option Nat :=
  if s = [] then none
  else if s.all Char.isDigit then
    some (s.foldl (fun a c => a * 10 + (c.toNat - 48)) 0)
  else none

/-- Python `int(s)` on a string: optional sign followed by digits;
anything else is a `ValueError` (`none`). -/
def parseInt (s : Str) : Option Int :=
  match s with
  | '-' :: t => (parseNatDigits t).map (fun n => -(n : Int))
  | '+' :: t => (parseNatDigits t).map (fun n => (n : Int))
  | t => (parseNatDigits t).map (fun n => (n : Int))

/-- Split a character list on every occurrence of `sep`, keeping empty
pieces: Python `s.split(sep)` for a one-character separator. -/
def splitOnCh (sep : Char) : Str → List Str
  | [] => [[]]
  | c :: rest =>
    let r := splitOnCh sep rest
    if c = sep then [] :: r
    else
      match r with
      | [] => [[c]]
      | h :: t => (c :: h) :: t

/-- digits, optionally followed by a point and more digits, as a rational -/
def parseFloatCore (t : Str) : Option Rat :=
  match splitOnCh '.' t with
  | [a] => (parseNatDigits a).map (fun n => (n : Rat))
  | [a, b] =>
    if (a ++ b) ≠ [] ∧ (a ++ b).all Char.isDigit then
      some (Rat.divInt ((a ++ b).foldl (fun acc c => acc * 10 + (c.toNat - 48)) 0) (10 ^ b.length))
    else none
  | _ => none

/-- Python `float(s)` restricted to decimal literals, returning the exact
rational value (the embedding uses `ℚ` for Python floats; the footer values
the tool writes are short decimals, exactly representable). -/
def parseFloat (s : Str) : Option Rat :=
  match s with
  | '-' :: t => (parseFloatCore t).map (fun q => -q)
  | '+' :: t => parseFloatCore t
  | t => parseFloatCore t

/-- Python `s.split(' ')`. -/
def splitSp (s : Str) : List Str := splitOnCh ' ' s

/-- First separator occurrence: splits `s` into the part before the first
`sep` and the part after it, or `none` when `sep` does not occur. -/
def breakAtSep (sep : Char) : Str → Option (Str × Str)
  | [] => none
  | c :: t =>
    if c = sep then some ([], t)
    else (breakAtSep sep t).map (fun p => (c :: p.1, p.2))

/-- Python `s.split(sep, maxsplit=n)`. -/
def pySplitMax (sep : Char) : Nat → Str → List Str
  | 0, s => [s]
  | n + 1, s =>
    match breakAtSep sep s with
    | none => [s]
    | some (a, b) => a :: pySplitMax sep n b

/-- Python `' '.join(parts)`. -/
def joinSp (parts : List Str) : Str := List.intercalate [' '] parts

/-- Python `needle in hay` on strings (substring containment). -/
def strContainsB (hay needle : Str) : Bool :=
  match hay with
  | [] => needle = []
  | _ :: t => needle.isPrefixOf hay || strContainsB t needle

/-- Python `s.rstrip()`. -/
def rstrip (s : Str) : Str := (s.reverse.dropWhile Char.isWhitespace).reverse

/-- Python `s.upper()` (ASCII). -/
def upperStr (s : Str) : Str := s.map Char.toUpper

/-! ## Data model: the parsed index file (dataclasses of `dgindexnv.py`) -/

/-- `DGIndexHeader` with its dataclass defaults. Python tuples and lists of
ints both become `List Int`; `Fraction` becomes `ℚ`. -/
structure DGIndexHeader where
  device : Int := 0
  decode_modes : List Int := [0, 0, 0, 0, 0]
  stream : List Int := [1, 0]
  ranges : List Int := [0, 0, 0, 0]
  depth : Int := 8
  aspect : Rat := Rat.divInt 16 9
  colorimetry : List Int := [2, 2, 2]
  packet_size : Option Int := none
  vpid : Option Int := none
deriving DecidableEq, Repr

/-- `DGIndexFrameData` (which extends `IndexFileFrameData` with vob/cell). -/
structure DGIndexFrameData where
  matrix : Int
  pic_type : Str
  vob : Option Int
  cell : Option Int
deriving DecidableEq, Repr

/-- `DGIndexFooter` with its dataclass defaults (`film` is a Python float,
modelled as `ℚ`). -/
structure DGIndexFooter where
  film : Rat := 0
  frames_coded : Int := 0
  frames_playback : Int := 0
  order : Int := 0
deriving DecidableEq, Repr

/-- `DGIndexFileInfo`: the result of `DGIndexNV.get_info`. -/
structure DGIndexFileInfo where
  path : Str
  file_idx : Int
  header : DGIndexHeader
  frame_data : List DGIndexFrameData
  footer : DGIndexFooter
deriving DecidableEq, Repr

/-! ## The in-place patcher: `DGIndexNV.update_video_filenames` -/

/-- The tool-signature token looked for in line 0. -/
def dgTok : Str := "DGIndexNV".data

/-- Index of the first blank line of `lines` (Python `lines.index('')`),
`none` when there is none (Python raises `ValueError` there). -/
def findBlank : List Str → Option Nat
  | [] => none
  | l :: rest => if l = [] then some 0 else (findBlank rest).map (fun i => i + 1)

/-- The bounds of the file-list block:
`start_videos = lines.index('') + 1` and
`end_videos = lines.index('', start_videos)`. -/
def blockBounds (lines : List Str) : Option (Nat × Nat) :=
  match findBlank lines with
  | none => none
  | some i =>
    match findBlank (lines.drop (i + 1)) with
    | none => none
    | some j => some (i + 1, i + 1 + j)

/-- Python slice `lines[start_videos:end_videos]`. -/
def rowSlice (lines : List Str) (s e : Nat) : List Str := (lines.drop s).take (e - s)

/-- `current_paths = [line[:-1][0] for line in split_lines]`; `none` models
the `IndexError` raised when some row has fewer than two tokens (the
comprehension evaluates left to right and fails at the first bad row). -/
def currentPaths : List (List Str) → Option (List Str)
  | [] => some []
  | l :: rest =>
    match l.dropLast.head? with
    | none => none
    | some p => (currentPaths rest).map (fun ps => p :: ps)

/-- Python `line[-1:]` on a token list. -/
def lastOne (l : List Str) : List Str := l.drop (l.length - 1)

/-- The outcome of a call to `update_video_filenames`: the file content
after the call, whether `write_lines` was executed, and the exception that
escaped, if any. The Python method writes the file exactly once, at its
last line; every exception is raised before that, so an erroneous call
leaves the content untouched. -/
structure PatchResult where
  content : List Str
  wrote : Bool
  err : Option PyErr
deriving DecidableEq, Repr

/-- `DGIndexNV.update_video_filenames(index_path, filepaths)`, as a pure
transformer of the file content (a list of lines). `filepaths` are the
string forms of the new paths (`str_filepaths`). -/
def update_video_filenames (lines filepaths : List Str) : PatchResult :=
  match lines.head? with
  | none => ⟨lines, false, some .indexError⟩
  | some l0 =>
    if strContainsB l0 dgTok = false then ⟨lines, false, some .corrupted⟩
    else
      match blockBounds lines with
      | none => ⟨lines, false, some .valueError⟩
      | some (s, e) =>
        if e - s ≠ filepaths.length then ⟨lines, false, some .corrupted⟩
        else
          let split_lines := (rowSlice lines s e).map splitSp
          match currentPaths split_lines with
          | none => ⟨lines, false, some .indexError⟩
          | some current_paths =>
            if current_paths = filepaths then ⟨lines, false, none⟩
            else
              let video_args := split_lines.map lastOne
              let newRows := (filepaths.zip video_args).map (fun pa => joinSp (pa.1 :: pa.2))
              ⟨lines.take s ++ newRows ++ lines.drop e, true, none⟩

/-! ## The parser: `DGIndexNV.get_info` -/

/-- vssource's `ExternalIndexer._split_lines`: split the line list at its
first blank line (`buff.index('')`), returning the parts before and after
it; `ValueError` when there is no blank line. -/
def splitLines (lines : List Str) : Except PyErr (List Str × List Str) :=
  match findBlank lines with
  | none => .error .valueError
  | some i => .ok (lines.take i, lines.drop (i + 1))

/-- Python `lst[i]` raising `IndexError` out of range. -/
def pyIdxE (l : List α) (i : Nat) : Except PyErr α :=
  match l.get? i with
  | some a => .ok a
  | none => .error .indexError

/-- Python `int(s)` raising `ValueError`. -/
def pyIntE (s : Str) : Except PyErr Int :=
  match parseInt s with
  | some n => .ok n
  | none => .error .valueError

/-- Python `list(map(int, parts))` raising `ValueError`. -/
def mapIntsE (l : List Str) : Except PyErr (List Int) :=
  match l.mapM parseInt with
  | some ns => .ok ns
  | none => .error .valueError

/-- vssource's `opt_int`: `int(x) if x is not None else None`. -/
def optInt (x : Option Str) : Except PyErr (Option Int) :=
  match x with
  | none => .ok none
  | some s =>
    match parseInt s with
    | some n => .ok (some n)
    | none => .error .valueError

/-- `Fraction(*ints)`: zero args is `0`, one arg `n/1`, two args `n/d`
(`ZeroDivisionError` when `d = 0`, else reduced), more a `TypeError`. -/
def pyFraction : List Int → Except PyErr Rat
  | [] => .ok 0
  | [n] => .ok (Rat.divInt n 1)
  | [n, d] => if d = 0 then .error .zeroDivision else .ok (Rat.divInt n d)
  | _ => .error .typeError

/-- The key dispatch of the header loop of `get_info`, carrying the header
built so far and the number of warnings printed so far. `debug` is whether
the `VSSOURCE_DEBUG` environment variable is set: the 0-aspect warning is
printed only then. -/
def headerDispatch (debug : Bool) (st : DGIndexHeader × Nat)
    (key : Str) (values : List Str) : Except PyErr (DGIndexHeader × Nat) :=
  if key = "DEVICE".data then do
    let v ← pyIdxE values 0
    let n ← pyIntE v
    .ok ({st.1 with device := n}, st.2)
  else if key = "DECODE_MODES".data then do
    let v ← pyIdxE values 0
    let ns ← mapIntsE (splitOnCh ',' v)
    .ok ({st.1 with decode_modes := ns}, st.2)
  else if key = "STREAM".data then do
    let ns ← mapIntsE values
    .ok ({st.1 with stream := ns}, st.2)
  else if key = "RANGE".data then do
    let ns ← mapIntsE values
    .ok ({st.1 with ranges := ns}, st.2)
  else if key = "DEMUX".data then .ok st
  else if key = "DEPTH".data then do
    let v ← pyIdxE values 0
    let n ← pyIntE v
    .ok ({st.1 with depth := n}, st.2)
  else if key = "ASPECT".data then do
    let ns ← mapIntsE values
    match pyFraction ns with
    | .ok q => .ok ({st.1 with aspect := q}, st.2)
    | .error .zeroDivision =>
      .ok ({st.1 with aspect := 1}, if debug then st.2 + 1 else st.2)
    | .error e => .error e
  else if key = "COLORIMETRY".data then do
    let ns ← mapIntsE values
    .ok ({st.1 with colorimetry := ns}, st.2)
  else if key = "PKTSIZ".data then do
    let v ← pyIdxE values 0
    let n ← pyIntE v
    .ok ({st.1 with packet_size := some n}, st.2)
  else if key = "VPID".data then do
    let v ← pyIdxE values 0
    let n ← pyIntE v
    .ok ({st.1 with vpid := some n}, st.2)
  else .ok st

/-- One iteration of the header loop over a raw header line:
`split_val = rlin.rstrip().split(' ')`, `key = split_val[0].upper()`,
`values = split_val[1:]`, then the key dispatch. The Python guard
`if split_val := rlin.rstrip().split(' ')` is always true (`split(' ')`
never returns an empty list), so it has no `else` branch here. -/
def applyHeaderLine (debug : Bool) (st : DGIndexHeader × Nat) (rlin : Str) :
    Except PyErr (DGIndexHeader × Nat) :=
  let split_val := splitSp (rstrip rlin)
  headerDispatch debug st (upperStr (split_val.headD [])) split_val.tail

/-- The header loop of `get_info` over the raw header block, returning the
header and the number of warnings printed. -/
def parseHeader (debug : Bool) (raw_header : List Str) :
    Except PyErr (DGIndexHeader × Nat) :=
  raw_header.foldlM (applyHeaderLine debug) ({}, 0)

/-- `video_sizes = [int(line[-1]) for line in [line.split(' ') for line in vid_lines]]`. -/
def parseVideoSizes (vid_lines : List Str) : Except PyErr (List Int) :=
  vid_lines.mapM (fun l => pyIntE ((splitSp l).getLastD []))

/-- The sector window of `get_info`:
`max_sector = sum([0, *video_sizes[:file_idx + 1]])` and
`idx_file_sector = [max_sector - video_sizes[file_idx], max_sector]`.
Kept as a separate definition because the claims on windowing are about
exactly this computation. -/
def sectorWindow (video_sizes : List Int) (file_idx : Int) : Except PyErr (Int × Int) :=
  let max_sector := ((0 : Int) :: pySliceTo video_sizes (file_idx + 1)).sum
  match pyGetI video_sizes file_idx with
  | none => .error .indexError
  | some size => .ok (max_sector - size, max_sector)

/-- `line = [*rawline.split(" ", maxsplit=6), *([None] * 6)]`. -/
def padLine (rawline : Str) : List (Option Str) :=
  (pySplitMax ' ' 6 rawline).map some ++ List.replicate 6 none

/-- `line[i]` on the padded token list (never out of range for `i ≤ 6`). -/
def pyGetO (l : List (Option Str)) (i : Nat) : Option Str := (l.get? i).join

/-- Python `str(x)` on `line[i]`: `str(None)` is the string `"None"`. -/
def pyStrOf (x : Option Str) : Str :=
  match x with
  | some s => s
  | none => "None".data

/-- The `curr_SEQ` update of one frame-loop iteration:
`if name == 'SEQ': curr_SEQ = opt_int(line[1]) or 0`. -/
def stepCursor (curr : Int) (line : List (Option Str)) (name : Str) : Except PyErr Int :=
  if name = "SEQ".data then
    match optInt (pyGetO line 1) with
    | .error e => .error e
    | .ok v => .ok (v.getD 0)
  else .ok curr

/-- Does `int(name.split(':')[0])` succeed? (the try/except that decides
whether a line is a frame record). -/
def frameName (name : Str) : Option Int := parseInt ((splitOnCh ':' name).headD [])

/-- Construction of one `DGIndexFrameData` from a padded frame line:
`DGIndexFrameData(int(line[2] or 0) + 2, str(line[1]), *opt_ints(line[4:6]))`. -/
def mkFrame (line : List (Option Str)) : Except PyErr DGIndexFrameData := do
  let mtx ← (match pyGetO line 2 with
    | none => Except.ok (0 : Int)
    | some s => if s = [] then Except.ok (0 : Int) else pyIntE s)
  let vob ← optInt (pyGetO line 4)
  let cell ← optInt (pyGetO line 5)
  .ok ⟨mtx + 2, pyStrOf (pyGetO line 1), vob, cell⟩

/-- The frame-data loop of `get_info` with window `[lo, hi]`, starting
cursor `curr` (`curr_SEQ` is 0 initially): stops at the first blank line,
skips lines while the cursor is `< lo`, stops once it is `> hi`, and keeps
every line whose first token integer-parses up to the first `:`. -/
def frameScan (lo hi : Int) : List Str → Int → Except PyErr (List DGIndexFrameData)
  | [], _ => .ok []
  | rawline :: rest, curr =>
    if rawline.length = 0 then .ok []
    else do
      let line := padLine rawline
      let name := pyStrOf (pyGetO line 0)
      let curr2 ← stepCursor curr line name
      if curr2 < lo then frameScan lo hi rest curr2
      else if curr2 > hi then .ok []
      else
        match frameName name with
        | none => frameScan lo hi rest curr2
        | some _ => do
          let fd ← mkFrame line
          let tail ← frameScan lo hi rest curr2
          .ok (fd :: tail)

/-- Instrumented variant of `frameScan` that also records, for each kept
frame record, the governing `curr_SEQ` cursor value (the record's sector).
`frameScan_eq_sec` proves it agrees with `frameScan`. -/
def frameScanSec (lo hi : Int) : List Str → Int → Except PyErr (List (Int × DGIndexFrameData))
  | [], _ => .ok []
  | rawline :: rest, curr =>
    if rawline.length = 0 then .ok []
    else do
      let line := padLine rawline
      let name := pyStrOf (pyGetO line 0)
      let curr2 ← stepCursor curr line name
      if curr2 < lo then frameScanSec lo hi rest curr2
      else if curr2 > hi then .ok []
      else
        match frameName name with
        | none => frameScanSec lo hi rest curr2
        | some _ => do
          let fd ← mkFrame line
          let tail ← frameScanSec lo hi rest curr2
          .ok ((curr2, fd) :: tail)

/-- The frame records of the block with no window restriction at all:
every line up to the first blank whose first token integer-parses, tagged
with its governing cursor. Used to state what a window *selects from*. -/
def frameCandidates : List Str → Int → Except PyErr (List (Int × DGIndexFrameData))
  | [], _ => .ok []
  | rawline :: rest, curr =>
    if rawline.length = 0 then .ok []
    else do
      let line := padLine rawline
      let name := pyStrOf (pyGetO line 0)
      let curr2 ← stepCursor curr line name
      match frameName name with
      | none => frameCandidates rest curr2
      | some _ => do
        let fd ← mkFrame line
        let tail ← frameCandidates rest curr2
        .ok ((curr2, fd) :: tail)

/-- The governing cursor value at each line of the frame block (one entry
per non-blank line processed, in order). The windowing claims assume these
are non-decreasing, which is the index format's invariant. -/
def lineCursors : List Str → Int → Except PyErr (List Int)
  | [], _ => .ok []
  | rawline :: rest, curr =>
    if rawline.length = 0 then .ok []
    else do
      let line := padLine rawline
      let name := pyStrOf (pyGetO line 0)
      let curr2 ← stepCursor curr line name
      let cs ← lineCursors rest curr2
      .ok (curr2 :: cs)

/-- The four footer fields in `__dict__` iteration order, with the
uppercased last `_`-component of each name (`key.split('_')[-1].upper()`). -/
inductive FootKey where
  | film | coded | playback | order
deriving DecidableEq, Repr

/-- `key.split('_')[-1].upper()` for each footer field. -/
def footSuffix : FootKey → Str
  | .film => "FILM".data
  | .coded => "CODED".data
  | .playback => "PLAYBACK".data
  | .order => "ORDER".data

/-- Footer fields in dataclass declaration order. -/
def footKeys : List FootKey := [.film, .coded, .playback, .order]

/-- The inner key loop of the footer parse, for one line's `values` pair. -/
def applyFootKey (values : List Str) (st : DGIndexFooter) (k : FootKey) :
    Except PyErr DGIndexFooter :=
  if footSuffix k ∈ values then
    match k with
    | .film =>
      match (values.filter (fun v => v.contains '%')).mapM
          (fun v => parseFloat (v.filter (fun c => c ≠ '%'))) with
      | none => .error .valueError
      | some qs => .ok {st with film := qs.headD 0}
    | .coded => do
      let v ← pyIdxE values 1
      let n ← pyIntE v
      .ok {st with frames_coded := n}
    | .playback => do
      let v ← pyIdxE values 1
      let n ← pyIntE v
      .ok {st with frames_playback := n}
    | .order => do
      let v ← pyIdxE values 1
      let n ← pyIntE v
      .ok {st with order := n}
  else .ok st

/-- One footer line: `values = [split_val[0], ' '.join(split_val[1:])]`,
then the key loop. The `if split_val := ...` guard is again always true. -/
def applyFooterLine (st : DGIndexFooter) (rlin : Str) : Except PyErr DGIndexFooter :=
  let split_val := splitSp (rstrip rlin)
  let values := [split_val.headD [], joinSp split_val.tail]
  footKeys.foldlM (applyFootKey values) st

/-- The footer loop of `get_info`: `for rlin in lines[-10:]`, where `lines`
is the whole remainder after the header block. -/
def parseFooter (lines : List Str) : Except PyErr DGIndexFooter :=
  (pyLastN lines 10).foldlM applyFooterLine {}

/-- `DGIndexNV.get_info(index_path, file_idx)` over the file content (the
list of lines of the index file) with `debug` the state of the
`VSSOURCE_DEBUG` environment variable; returns the parsed info and the
number of warnings printed. The `lru_cache` memoization is omitted: the
function is pure, so caching does not change its value. -/
def get_info (path : Str) (content : List Str) (file_idx : Int) (debug : Bool) :
    Except PyErr (DGIndexFileInfo × Nat) := do
  let hd ← splitLines content
  let l0 ← (pyIdxE hd.1 0)
  if strContainsB l0 dgTok = false then Except.error .corrupted
  else do
    let vl ← splitLines hd.2
    let hl ← splitLines vl.2
    let hw ← parseHeader debug hl.1
    let video_sizes ← parseVideoSizes vl.1
    let win ← sectorWindow video_sizes file_idx
    let frame_data ← frameScan win.1 win.2 hl.2 0
    let footer ← parseFooter hl.2
    .ok (⟨path, file_idx, hw.1, frame_data, footer⟩, hw.2)

/-! ## The cache layer: `DGIndexNVAddFilenames.index` -/

/-- `files = list(sorted(set(files)))` in `index()`: the deduplicated,
sorted list of the requested (string) paths of one directory group. -/
def sortedSet (files : List Str) : List Str :=
  List.insertionSort (fun a b => a ≤ b) files.dedup

/-- `hash_str = self.get_videos_hash(files)` in `index()`: the digest
itself is computed by vstools over the file contents and is abstracted
here as an arbitrary function `hash` of the sorted path set — the identity
claims are about which argument it receives. -/
def identityHash (hash : List Str → Nat) (files : List Str) : Nat :=
  hash (sortedSet files)

/-- The external action `_index` ends up taking for one output path. -/
inductive ToolCall where
  | patcher (paths : List Str)
  | indexer (paths : List Str)
deriving DecidableEq, Repr

/-- The `_index` closure of `DGIndexNVAddFilenames.index`: for one output
path, patch the existing index in place, or (after deleting an empty or
forced one) run the external indexing tool. The filesystem is abstracted
to whether the output file exists and its size. -/
def indexOne (outputIsFile : Bool) (outputSize : Nat) (force : Bool)
    (files : List Str) : ToolCall :=
  if outputIsFile then
    if outputSize = 0 || force then .indexer files
    else .patcher files
  else .indexer files

/-- `index()` on one directory group without `split_files`: the group is
deduplicated and sorted, then handed to `_index` for the joined output. -/
def indexJoined (outputIsFile : Bool) (outputSize : Nat) (force : Bool)
    (files : List Str) : ToolCall :=
  indexOne outputIsFile outputSize force (sortedSet files)

/-- The two checks `update_video_filenames` performs before looking at the
file-list block: the file has a first line and it contains the tool token. -/
def sigOk (lines : List Str) : Bool :=
  match lines.head? with
  | none => false
  | some l0 => strContainsB l0 dgTok

/-! ## Helper lemmas -/

@[simp] theorem except_bind_ok (a : α) (f : α → Except ε β) :
    (Except.ok a : Except ε α) >>= f = f a := rfl

@[simp] theorem except_bind_error (e : ε) (f : α → Except ε β) :
    (Except.error e : Except ε α) >>= f = Except.error e := rfl

@[simp] theorem except_map_ok (f : α → β) (a : α) :
    (Except.ok a : Except ε α).map f = .ok (f a) := rfl

@[simp] theorem except_map_error (f : α → β) (e : ε) :
    (Except.error e : Except ε α).map f = .error e := rfl

@[simp] theorem except_pure_eq (a : α) : (pure a : Except ε α) = .ok a := rfl

/-- `frameScan` is the record part of the instrumented `frameScanSec`. -/
theorem frameScan_eq_sec (lo hi : Int) (lines : List Str) (curr : Int) :
    frameScan lo hi lines curr
      = (frameScanSec lo hi lines curr).map (List.map Prod.snd) := by
  induction lines generalizing curr with
  | nil => rfl
  | cons rawline rest ih =>
    unfold frameScan frameScanSec
    by_cases hb : rawline.length = 0
    · simp [hb]
    · simp only [hb, if_false]
      cases hst : stepCursor curr (padLine rawline)
          (pyStrOf (pyGetO (padLine rawline) 0)) with
      | error e => simp
      | ok curr2 =>
        simp only [except_bind_ok]
        by_cases h1 : curr2 < lo
        · simp only [h1, if_true, ih]
        · simp only [h1, if_false]
          by_cases h2 : curr2 > hi
          · simp [h2]
          · simp only [h2, if_false]
            cases hfn : frameName (pyStrOf (pyGetO (padLine rawline) 0)) with
            | none => exact ih curr2
            | some k =>
              cases hmk : mkFrame (padLine rawline) with
              | error e => simp
              | ok fd =>
                simp only [except_bind_ok]
                rw [ih curr2]
                cases frameScanSec lo hi rest curr2 <;> simp

theorem blockBounds_ne_nil {lines : List Str} {s e : Nat}
    (hb : blockBounds lines = some (s, e)) : lines ≠ [] := by
  intro h
  subst h
  simp [blockBounds, findBlank] at hb

/-- Any structurally detected row-count mismatch makes the patcher fail
closed with the corruption error, leaving the content untouched. -/
theorem update_corrupted_of_count {lines paths : List Str} {s e : Nat}
    (hb : blockBounds lines = some (s, e)) (hne : e - s ≠ paths.length) :
    update_video_filenames lines paths = ⟨lines, false, some .corrupted⟩ := by
  obtain ⟨l0, rest, rfl⟩ : ∃ l0 rest, lines = l0 :: rest := by
    cases lines with
    | nil => exact absurd rfl (blockBounds_ne_nil hb)
    | cons a t => exact ⟨a, t, rfl⟩
  unfold update_video_filenames
  simp only [List.head?]
  by_cases hc : strContainsB l0 dgTok = false
  · simp [hc]
  · simp only [hc, if_false]
    rw [hb]
    simp [hne]

/-- When the signature is fine, the block bounds exist, the row count
matches and the recorded paths equal the requested ones, the patcher
returns without writing and without error. -/
theorem update_noop_of_paths_eq {lines paths : List Str} {s e : Nat}
    (hsig : sigOk lines = true) (hb : blockBounds lines = some (s, e))
    (hcount : e - s = paths.length)
    (hcur : currentPaths ((rowSlice lines s e).map splitSp) = some paths) :
    update_video_filenames lines paths = ⟨lines, false, none⟩ := by
  obtain ⟨l0, rest, rfl⟩ : ∃ l0 rest, lines = l0 :: rest := by
    cases lines with
    | nil => exact absurd rfl (blockBounds_ne_nil hb)
    | cons a t => exact ⟨a, t, rfl⟩
  have hc : strContainsB l0 dgTok = true := by
    simpa [sigOk] using hsig
  unfold update_video_filenames
  simp only [List.head?, hc]
  rw [hb]
  simp [hcount, hcur]

/-- Every record kept by the windowed frame scan carries a governing
cursor inside the closed window `[lo, hi]`. -/
theorem frameScanSec_sound (lo hi : Int) (lines : List Str) (curr : Int)
    (l : List (Int × DGIndexFrameData))
    (h : frameScanSec lo hi lines curr = .ok l) :
    ∀ p ∈ l, lo ≤ p.1 ∧ p.1 ≤ hi := by
  induction lines generalizing curr l with
  | nil =>
    unfold frameScanSec at h
    cases h
    simp
  | cons rawline rest ih =>
    unfold frameScanSec at h
    by_cases hb : rawline.length = 0
    · simp only [hb, if_true] at h
      cases h
      simp
    · simp only [hb, if_false] at h
      cases hst : stepCursor curr (padLine rawline)
          (pyStrOf (pyGetO (padLine rawline) 0)) with
      | error e => rw [hst] at h; cases h
      | ok curr2 =>
        rw [hst] at h
        simp only [except_bind_ok] at h
        by_cases h1 : curr2 < lo
        · simp only [h1, if_true] at h
          exact ih curr2 l h
        · simp only [h1, if_false] at h
          by_cases h2 : curr2 > hi
          · simp only [h2, if_true] at h
            cases h
            simp
          · simp only [h2, if_false] at h
            cases hfn : frameName (pyStrOf (pyGetO (padLine rawline) 0)) with
            | none =>
              rw [hfn] at h
              exact ih curr2 l h
            | some k =>
              rw [hfn] at h
              cases hmk : mkFrame (padLine rawline) with
              | error e => rw [hmk] at h; cases h
              | ok fd =>
                rw [hmk] at h
                simp only [except_bind_ok] at h
                cases htl : frameScanSec lo hi rest curr2 with
                | error e => rw [htl] at h; cases h
                | ok tail =>
                  rw [htl] at h
                  simp only [except_bind_ok] at h
                  cases h
                  intro p hp
                  rcases List.mem_cons.mp hp with hp1 | hp2
                  · subst hp1
                    exact ⟨le_of_not_lt h1, le_of_not_lt h2⟩
                  · exact ih curr2 tail htl p hp2

/-- Membership of a record's cursor in the closed window `[lo, hi]`, the
selection the frame loop implements. -/
def inWindow (lo hi : Int) (p : Int × DGIndexFrameData) : Bool :=
  decide (lo ≤ p.1) && decide (p.1 ≤ hi)

/-- Every candidate record's governing cursor occurs in the per-line
cursor list. -/
theorem frameCandidates_cursor_mem (lines : List Str) (curr : Int)
    (cands : List (Int × DGIndexFrameData)) (cs : List Int)
    (hc : frameCandidates lines curr = .ok cands)
    (hcs : lineCursors lines curr = .ok cs) :
    ∀ p ∈ cands, p.1 ∈ cs := by
  induction lines generalizing curr cands cs with
  | nil =>
    unfold frameCandidates at hc
    cases hc
    simp
  | cons rawline rest ih =>
    unfold frameCandidates at hc
    unfold lineCursors at hcs
    by_cases hb : rawline.length = 0
    · simp only [hb, if_true] at hc
      cases hc
      simp
    · simp only [hb, if_false] at hc hcs
      cases hst : stepCursor curr (padLine rawline)
          (pyStrOf (pyGetO (padLine rawline) 0)) with
      | error e => rw [hst] at hc; cases hc
      | ok curr2 =>
        rw [hst] at hc hcs
        simp only [except_bind_ok] at hc hcs
        cases hlc : lineCursors rest curr2 with
        | error e => rw [hlc] at hcs; cases hcs
        | ok cs2 =>
          rw [hlc] at hcs
          simp only [except_bind_ok] at hcs
          cases hcs
          cases hfn : frameName (pyStrOf (pyGetO (padLine rawline) 0)) with
          | none =>
            rw [hfn] at hc
            intro p hp
            exact List.mem_cons_of_mem _ (ih curr2 cands cs2 hc hlc p hp)
          | some k =>
            rw [hfn] at hc
            cases hmk : mkFrame (padLine rawline) with
            | error e => rw [hmk] at hc; cases hc
            | ok fd =>
              rw [hmk] at hc
              simp only [except_bind_ok] at hc
              cases htl : frameCandidates rest curr2 with
              | error e => rw [htl] at hc; cases hc
              | ok cands2 =>
                rw [htl] at hc
                simp only [except_bind_ok] at hc
                cases hc
                intro p hp
                rcases List.mem_cons.mp hp with hp1 | hp2
                · subst hp1
                  simp
                · exact List.mem_cons_of_mem _ (ih curr2 cands2 cs2 htl hlc p hp2)

/-- Under the format's invariant that the per-line cursors are
non-decreasing, the windowed frame scan returns exactly the candidate
records whose governing cursor falls in the closed window `[lo, hi]`. -/
theorem frameScanSec_eq_filter (lo hi : Int) (lines : List Str) (curr : Int)
    (cands : List (Int × DGIndexFrameData)) (cs : List Int)
    (hc : frameCandidates lines curr = .ok cands)
    (hcs : lineCursors lines curr = .ok cs)
    (hm : cs.Chain' (fun a b => a ≤ b)) :
    frameScanSec lo hi lines curr = .ok (cands.filter (inWindow lo hi)) := by
  induction lines generalizing curr cands cs with
  | nil =>
    unfold frameCandidates at hc
    cases hc
    rfl
  | cons rawline rest ih =>
    unfold frameCandidates at hc
    unfold lineCursors at hcs
    unfold frameScanSec
    by_cases hb : rawline.length = 0
    · simp only [hb, if_true] at hc ⊢
      cases hc
      rfl
    · simp only [hb, if_false] at hc hcs ⊢
      cases hst : stepCursor curr (padLine rawline)
          (pyStrOf (pyGetO (padLine rawline) 0)) with
      | error e => rw [hst] at hc; cases hc
      | ok curr2 =>
        rw [hst] at hc hcs
        simp only [except_bind_ok] at hc hcs ⊢
        cases hlc : lineCursors rest curr2 with
        | error e => rw [hlc] at hcs; cases hcs
        | ok cs2 =>
          rw [hlc] at hcs
          simp only [except_bind_ok] at hcs
          cases hcs
          have hm2 : cs2.Chain' (fun a b => a ≤ b) := hm.tail
          have hge : ∀ x ∈ cs2, curr2 ≤ x := by
            have hp := (List.chain'_iff_pairwise.mp hm)
            exact (List.pairwise_cons.mp hp).1
          by_cases h1 : curr2 < lo
          · simp only [h1, if_true]
            cases hfn : frameName (pyStrOf (pyGetO (padLine rawline) 0)) with
            | none =>
              rw [hfn] at hc
              exact ih curr2 cands cs2 hc hlc hm2
            | some k =>
              rw [hfn] at hc
              cases hmk : mkFrame (padLine rawline) with
              | error e => rw [hmk] at hc; cases hc
              | ok fd =>
                rw [hmk] at hc
                simp only [except_bind_ok] at hc
                cases htl : frameCandidates rest curr2 with
                | error e => rw [htl] at hc; cases hc
                | ok cands2 =>
                  rw [htl] at hc
                  simp only [except_bind_ok] at hc
                  cases hc
                  have hwf : inWindow lo hi (curr2, fd) = false := by
                    unfold inWindow
                    simp only [Bool.and_eq_false_eq_eq_false_or_eq_false,
                      decide_eq_false_iff_not, not_le]
                    exact Or.inl h1
                  rw [List.filter_cons_of_neg (by simp [hwf])]
                  exact ih curr2 cands2 cs2 htl hlc hm2
          · simp only [h1, if_false]
            by_cases h2 : curr2 > hi
            · simp only [h2, if_true]
              have hmem := frameCandidates_cursor_mem (rawline :: rest) curr
                cands (curr2 :: cs2) (by
                  unfold frameCandidates
                  simp only [hb, if_false, hst, except_bind_ok]
                  exact hc)
                (by
                  unfold lineCursors
                  simp only [hb, if_false, hst, except_bind_ok, hlc])
              have hnil : cands.filter (inWindow lo hi) = [] := by
                rw [List.filter_eq_nil_iff]
                intro p hp
                have hpc : p.1 ∈ curr2 :: cs2 := hmem p hp
                have hge2 : curr2 ≤ p.1 := by
                  rcases List.mem_cons.mp hpc with h | h
                  · rw [h]
                  · exact hge _ h
                unfold inWindow
                simp only [Bool.and_eq_true, decide_eq_true_eq, not_and, not_le]
                intro _
                omega
              rw [hnil]
            · simp only [h2, if_false]
              cases hfn : frameName (pyStrOf (pyGetO (padLine rawline) 0)) with
              | none =>
                rw [hfn] at hc
                exact ih curr2 cands cs2 hc hlc hm2
              | some k =>
                rw [hfn] at hc
                cases hmk : mkFrame (padLine rawline) with
                | error e => rw [hmk] at hc; cases hc
                | ok fd =>
                  rw [hmk] at hc
                  simp only [except_bind_ok] at hc
                  cases htl : frameCandidates rest curr2 with
                  | error e => rw [htl] at hc; cases hc
                  | ok cands2 =>
                    rw [htl] at hc
                    simp only [except_bind_ok] at hc
                    cases hc
                    have hwt : inWindow lo hi (curr2, fd) = true := by
                      unfold inWindow
                      simp only [Bool.and_eq_true, decide_eq_true_eq]
                      omega
                    rw [ih curr2 cands2 cs2 htl hlc hm2]
                    simp only [except_bind_ok]
                    rw [List.filter_cons_of_pos (by simp [hwt])]

/-- For a nonnegative in-range `file_idx = i`, the sector window computed
by `get_info` is `[(sizes.take i).sum, (sizes.take (i+1)).sum]`: the
cumulative size before file `i` and the cumulative size through it. -/
theorem sectorWindow_nat (sizes : List Int) (i : Nat) (h : i < sizes.length) :
    sectorWindow sizes (i : Int)
      = .ok ((sizes.take i).sum, (sizes.take (i + 1)).sum) := by
  unfold sectorWindow pySliceTo pyGetI
  have h0 : ¬ ((i : Int) + 1 < 0) := by omega
  have h1 : ¬ ((i : Int) < 0) := by omega
  simp only [h0, h1, if_false]
  have h2 : ((i : Int) + 1).toNat = i + 1 := by omega
  have h3 : (i : Int).toNat = i := by omega
  rw [h2, h3, List.get?_eq_get h]
  have h4 : (sizes.take (i + 1)).sum = (sizes.take i).sum + sizes.get ⟨i, h⟩ := by
    rw [List.sum_take_succ _ _ h]
    rfl
  simp only [List.sum_cons, zero_add]
  rw [h4]
  congr 2
  ring

/-- The default `file_idx = -1` gives `max_sector = sum([0]) = 0` (the
Python slice `[: -1 + 1]` is empty) while `video_sizes[-1]` is the last
declared size, so the window is `[-last, 0]`. -/
theorem sectorWindow_neg_one (sizes : List Int) (h : sizes ≠ []) :
    sectorWindow sizes (-1) = .ok (-(sizes.getLast h), 0) := by
  unfold sectorWindow pySliceTo pyGetI
  have hlen : 1 ≤ sizes.length := List.length_pos.mpr h
  have h0 : ((-1 : Int) + 1 < 0) = False := by norm_num
  have h1 : ((-1 : Int) < 0) = True := by norm_num
  have h2 : ¬ ((sizes.length : Int) + (-1) < 0) := by omega
  have h3 : ((sizes.length : Int) + (-1)).toNat = sizes.length - 1 := by omega
  have h5 : sizes.length - 1 < sizes.length := by omega
  simp only [h0, h1, if_true, if_false, h2, h3]
  rw [List.get?_eq_get h5]
  have h6 : sizes.getLast h = sizes.get ⟨sizes.length - 1, h5⟩ := by
    rw [List.getLast_eq_getElem]
    rfl
  have h7 : ((-1 : Int) + 1).toNat = 0 := by norm_num
  rw [h7]
  simp only [List.take_zero, List.sum_cons, List.sum_nil, zero_add, add_zero]
  rw [h6]
  congr 2
  ring

/-- `lines.index('')` on a block of non-blank lines followed by a blank
line finds exactly the end of the block. -/
theorem findBlank_append_no_blank (xs ys : List Str) (h : [] ∉ xs) :
    findBlank (xs ++ [] :: ys) = some xs.length := by
  induction xs with
  | nil => simp [findBlank]
  | cons a t ih =>
    have ha : ¬ (a = []) := by
      intro he
      exact h (he ▸ List.mem_cons_self a t)
    simp only [List.cons_append, findBlank, ha, if_false, List.append_eq]
    rw [ih (fun hm => h (List.mem_cons_of_mem _ hm))]
    rfl

/-- `_split_lines` on content of the shape `block ++ [''] ++ rest` with a
blank-free block returns exactly `(block, rest)`. -/
theorem splitLines_append (xs ys : List Str) (h : [] ∉ xs) :
    splitLines (xs ++ [] :: ys) = .ok (xs, ys) := by
  unfold splitLines
  rw [findBlank_append_no_blank xs ys h]
  have h1 : (xs ++ [] :: ys).take xs.length = xs := List.take_left' rfl
  have h2 : (xs ++ [] :: ys).drop (xs.length + 1) = ys := by
    rw [List.append_cons]
    refine List.drop_left' ?_
    simp
  dsimp only
  rw [h1, h2]

/-! ### Splitter algebra, for the patcher proofs -/

theorem splitOnCh_ne_nil (sep : Char) (s : Str) : splitOnCh sep s ≠ [] := by
  induction s with
  | nil => simp [splitOnCh]
  | cons x t ih =>
    unfold splitOnCh
    by_cases hx : x = sep
    · simp [hx]
    · simp only [hx, if_false]
      cases h : splitOnCh sep t with
      | nil => simp
      | cons a b => simp

theorem mem_splitOnCh_not_sep (sep : Char) (s : Str) :
    ∀ x ∈ splitOnCh sep s, sep ∉ x := by
  induction s with
  | nil =>
    intro x hx
    unfold splitOnCh at hx
    rcases List.mem_singleton.mp hx with h
    subst h
    simp
  | cons y t ih =>
    intro x hx
    unfold splitOnCh at hx
    by_cases hy : y = sep
    · simp only [hy, if_true, if_pos rfl] at hx
      rcases List.mem_cons.mp hx with h1 | h2
      · subst h1; simp
      · exact ih x h2
    · simp only [hy, if_false] at hx
      cases h : splitOnCh sep t with
      | nil => exact absurd h (splitOnCh_ne_nil sep t)
      | cons a b =>
        rw [h] at hx
        rcases List.mem_cons.mp hx with h1 | h2
        · subst h1
          intro hc
          rcases List.mem_cons.mp hc with h3 | h4
          · exact hy h3.symm
          · exact ih a (h ▸ List.mem_cons_self a b) h4
        · exact ih x (h ▸ List.mem_cons_of_mem a h2)

theorem splitOnCh_no_sep (sep : Char) (s : Str) (h : sep ∉ s) :
    splitOnCh sep s = [s] := by
  induction s with
  | nil => rfl
  | cons x t ih =>
    have hx : ¬ (x = sep) := by
      intro he
      exact h (he ▸ List.mem_cons_self x t)
    unfold splitOnCh
    simp only [hx, if_false]
    rw [ih (fun hm => h (List.mem_cons_of_mem _ hm))]

theorem splitOnCh_append_sep (sep : Char) (a b : Str) :
    splitOnCh sep (a ++ sep :: b) = splitOnCh sep a ++ splitOnCh sep b := by
  induction a with
  | nil => simp [splitOnCh]
  | cons x t ih =>
    show splitOnCh sep (x :: (t ++ sep :: b))
      = splitOnCh sep (x :: t) ++ splitOnCh sep b
    by_cases hx : x = sep
    · simp only [splitOnCh, hx, eq_self_iff_true, if_true]
      rw [ih]
      rfl
    · simp only [splitOnCh]
      rw [if_neg hx, if_neg hx, ih]
      cases h : splitOnCh sep t with
      | nil => exact absurd h (splitOnCh_ne_nil sep t)
      | cons c d => simp

theorem joinSp_pair (p a : Str) : joinSp [p, a] = p ++ ' ' :: a := by
  unfold joinSp
  simp [List.intercalate]

theorem drop_length_sub_one {α : Type} (l : List α) (h : l ≠ []) :
    l.drop (l.length - 1) = [l.getLast h] := by
  induction l with
  | nil => exact absurd rfl h
  | cons a t ih =>
    cases t with
    | nil => rfl
    | cons b t2 =>
      have h2 : (b :: t2 : List α) ≠ [] := by simp
      have hl : (a :: b :: t2).length - 1 = (b :: t2).length - 1 + 1 := by
        simp
      rw [hl]
      show (b :: t2).drop ((b :: t2).length - 1) = _
      rw [ih h2]
      rw [List.getLast_cons h2]

theorem lastOne_eq_getLast (l : List Str) (h : l ≠ []) :
    lastOne l = [l.getLast h] := by
  unfold lastOne
  exact drop_length_sub_one l h

theorem lastOne_concat (l : List Str) (x : Str) : lastOne (l ++ [x]) = [x] := by
  unfold lastOne
  simp only [List.length_append, List.length_singleton, Nat.add_sub_cancel]
  exact List.drop_left' rfl

/-! ### Structure of the file around its first two blank lines -/

theorem findBlank_decomp (l : List Str) (i : Nat) (h : findBlank l = some i) :
    i < l.length ∧ l = l.take i ++ [] :: l.drop (i + 1) ∧ [] ∉ l.take i := by
  induction l generalizing i with
  | nil => cases h
  | cons a t ih =>
    unfold findBlank at h
    by_cases ha : a = []
    · rw [if_pos ha] at h
      cases h
      subst ha
      refine ⟨by simp, by simp, by simp⟩
    · rw [if_neg ha] at h
      cases hf : findBlank t with
      | none => rw [hf] at h; cases h
      | some j =>
        rw [hf] at h
        cases h
        obtain ⟨h0, h1, h2⟩ := ih j hf
        refine ⟨by simpa using h0, ?_, ?_⟩
        · show a :: t = a :: t.take j ++ [] :: t.drop (j + 1)
          rw [List.cons_append]
          rw [← h1]
        · intro hm
          rcases List.mem_cons.mp hm with hx | hx
          · exact ha hx.symm
          · exact h2 hx

theorem strContainsB_nil_false : strContainsB [] dgTok = false := by decide

/-- Full decomposition of a file accepted by the patcher's structural
checks, in terms of its first two blank lines. -/
theorem blockBounds_decomp (lines : List Str) (s e : Nat)
    (hb : blockBounds lines = some (s, e)) :
    1 ≤ s ∧ s ≤ e ∧ s ≤ lines.length ∧
    lines = lines.take (s - 1) ++
      [] :: (rowSlice lines s e ++ [] :: lines.drop (e + 1)) ∧
    [] ∉ lines.take (s - 1) ∧ [] ∉ rowSlice lines s e ∧
    (rowSlice lines s e).length = e - s ∧
    lines.drop e = [] :: lines.drop (e + 1) ∧
    (lines.take (s - 1)).length = s - 1 := by
  unfold blockBounds at hb
  cases h1 : findBlank lines with
  | none => rw [h1] at hb; cases hb
  | some i =>
    rw [h1] at hb
    dsimp only at hb
    cases h2 : findBlank (lines.drop (i + 1)) with
    | none => rw [h2] at hb; cases hb
    | some j =>
      rw [h2] at hb
      cases hb
      obtain ⟨hi1, hi2, hi3⟩ := findBlank_decomp lines i h1
      obtain ⟨hj1, hj2, hj3⟩ := findBlank_decomp (lines.drop (i + 1)) j h2
      have hslice : rowSlice lines (i + 1) (i + 1 + j) = (lines.drop (i + 1)).take j := by
        unfold rowSlice
        congr 1
        omega
      have hlen : ((lines.drop (i + 1)).take j).length = j := by
        rw [List.length_take]
        omega
      have hdropE : lines.drop (i + 1 + j) = [] :: lines.drop (i + 1 + j + 1) := by
        have hd1 : lines.drop (i + 1 + j) = (lines.drop (i + 1)).drop j := by
          rw [List.drop_drop]
        have hd2 : lines.drop (i + 1 + j + 1) = (lines.drop (i + 1)).drop (j + 1) := by
          rw [List.drop_drop]
          congr 1
        rw [hd1, hd2]
        conv_lhs => rw [hj2]
        rw [List.drop_left' hlen]
      refine ⟨by omega, by omega, by omega, ?_, ?_, ?_, ?_, hdropE, ?_⟩
      · have hst : lines.take (i + 1 - 1) = lines.take i := by congr 1
        have hd2 : lines.drop (i + 1 + j + 1) = (lines.drop (i + 1)).drop (j + 1) := by
          rw [List.drop_drop]
          congr 1
        rw [hst, hslice, hd2]
        conv_lhs => rw [hi2]
        rw [← hj2]
      · have hst : lines.take (i + 1 - 1) = lines.take i := by congr 1
        rw [hst]
        exact hi3
      · rw [hslice]
        intro hm
        exact hj3 hm
      · rw [hslice, hlen]
        omega
      · rw [List.length_take]
        omega

/-! ### The patcher's view of a structured file -/

theorem take_construct (A rows D : List Str) :
    (A ++ [] :: (rows ++ [] :: D)).take (A.length + 1) = A ++ [[]] := by
  rw [List.append_cons A [] (rows ++ [] :: D)]
  refine List.take_left' ?_
  simp

theorem drop_start_construct (A rows D : List Str) :
    (A ++ [] :: (rows ++ [] :: D)).drop (A.length + 1) = rows ++ [] :: D := by
  rw [List.append_cons A [] (rows ++ [] :: D)]
  refine List.drop_left' ?_
  simp

theorem rowSlice_construct (A rows D : List Str) :
    rowSlice (A ++ [] :: (rows ++ [] :: D)) (A.length + 1)
      (A.length + 1 + rows.length) = rows := by
  unfold rowSlice
  rw [drop_start_construct]
  have h1 : A.length + 1 + rows.length - (A.length + 1) = rows.length := by omega
  rw [h1]
  exact List.take_left' rfl

theorem drop_end_construct (A rows D : List Str) :
    (A ++ [] :: (rows ++ [] :: D)).drop (A.length + 1 + rows.length)
      = [] :: D := by
  have h : A ++ [] :: (rows ++ [] :: D) = ((A ++ [[]]) ++ rows) ++ [] :: D := by
    simp [List.append_assoc]
  rw [h]
  refine List.drop_left' ?_
  simp only [List.length_append, List.length_cons, List.length_nil]

theorem blockBounds_construct (A rows D : List Str)
    (hA : [] ∉ A) (hrows : [] ∉ rows) :
    blockBounds (A ++ [] :: (rows ++ [] :: D))
      = some (A.length + 1, A.length + 1 + rows.length) := by
  unfold blockBounds
  rw [findBlank_append_no_blank A _ hA]
  dsimp only
  rw [drop_start_construct, findBlank_append_no_blank rows D hrows]

/-- Inversion of a patcher call that did not raise: the structural checks
passed, and the call either matched the recorded paths and wrote nothing,
or rewrote exactly the row block. -/
theorem update_ok_inversion (lines paths c : List Str) (w : Bool)
    (h : update_video_filenames lines paths = ⟨c, w, none⟩) :
    sigOk lines = true ∧
    ∃ s e cur,
      blockBounds lines = some (s, e) ∧ e - s = paths.length ∧
      currentPaths ((rowSlice lines s e).map splitSp) = some cur ∧
      ((cur = paths ∧ c = lines ∧ w = false) ∨
       (cur ≠ paths ∧ w = true ∧
         c = lines.take s ++
           (paths.zip (((rowSlice lines s e).map splitSp).map lastOne)).map
             (fun pa => joinSp (pa.1 :: pa.2)) ++ lines.drop e)) := by
  unfold update_video_filenames at h
  cases hh : lines.head? with
  | none => rw [hh] at h; cases h
  | some l0 =>
    rw [hh] at h
    dsimp only at h
    by_cases hc : strContainsB l0 dgTok = false
    · rw [if_pos hc] at h; cases h
    · rw [if_neg hc] at h
      refine ⟨by unfold sigOk; rw [hh]; simpa using hc, ?_⟩
      cases hb : blockBounds lines with
      | none => rw [hb] at h; cases h
      | some se =>
        obtain ⟨s, e⟩ := se
        rw [hb] at h
        dsimp only at h
        by_cases hcount : e - s ≠ paths.length
        · rw [if_pos hcount] at h; cases h
        · rw [if_neg hcount] at h
          cases hcur : currentPaths ((rowSlice lines s e).map splitSp) with
          | none => rw [hcur] at h; cases h
          | some cur =>
            rw [hcur] at h
            dsimp only at h
            by_cases heq : cur = paths
            · rw [if_pos heq] at h
              cases h
              exact ⟨s, e, cur, rfl, not_not.mp hcount, hcur,
                Or.inl ⟨heq, rfl, rfl⟩⟩
            · rw [if_neg heq] at h
              cases h
              exact ⟨s, e, cur, rfl, not_not.mp hcount, hcur,
                Or.inr ⟨heq, rfl, rfl⟩⟩

/-- Evaluation of the patcher's write branch: structural checks pass and
the recorded paths differ from the requested ones, so the row block is
rewritten (one write, no error). -/
theorem update_write_eval (lines paths : List Str) (s e : Nat) (cur : List Str)
    (hsig : sigOk lines = true) (hb : blockBounds lines = some (s, e))
    (hcount : e - s = paths.length)
    (hcur : currentPaths ((rowSlice lines s e).map splitSp) = some cur)
    (hne : cur ≠ paths) :
    update_video_filenames lines paths
      = ⟨lines.take s ++
          (paths.zip (((rowSlice lines s e).map splitSp).map lastOne)).map
            (fun pa => joinSp (pa.1 :: pa.2)) ++ lines.drop e, true, none⟩ := by
  obtain ⟨l0, t, rfl⟩ : ∃ l0 t, lines = l0 :: t := by
    cases lines with
    | nil => exact absurd rfl (blockBounds_ne_nil hb)
    | cons a t => exact ⟨a, t, rfl⟩
  have hc : strContainsB l0 dgTok = true := by
    simpa [sigOk] using hsig
  unfold update_video_filenames
  simp only [List.head?, hc]
  rw [hb]
  simp only [hcount, if_neg (by omega : ¬ e - s ≠ paths.length)]
  rw [hcur]
  simp only [if_neg hne]
  simp

/-- Second-call analysis of rewritten rows: every written row has the
shape `path ++ ' ' ++ last-token` with a space-free last token, so
re-splitting it recovers the path's first token as the recorded path and
exactly the same one-token argument lists. -/
theorem rewritten_rows_spec (paths : List Str) (as : List (List Str))
    (hlen : as.length = paths.length)
    (hform : ∀ x ∈ as, ∃ a, x = [a] ∧ ' ' ∉ a) :
    currentPaths (((paths.zip as).map (fun pa => joinSp (pa.1 :: pa.2))).map splitSp)
        = some ((paths.zip as).map (fun pa => (splitSp pa.1).headD [])) ∧
    ((((paths.zip as).map (fun pa => joinSp (pa.1 :: pa.2))).map splitSp).map lastOne)
        = as ∧
    [] ∉ (paths.zip as).map (fun pa => joinSp (pa.1 :: pa.2)) ∧
    ((paths.zip as).map (fun pa => joinSp (pa.1 :: pa.2))).length = paths.length ∧
    ((∀ p ∈ paths, ' ' ∉ p) →
      (paths.zip as).map (fun pa => (splitSp pa.1).headD []) = paths) := by
  induction paths generalizing as with
  | nil =>
    cases as with
    | nil => exact ⟨rfl, rfl, by simp, rfl, fun _ => rfl⟩
    | cons x t => cases hlen
  | cons p pt ih =>
    cases as with
    | nil => cases hlen
    | cons x at2 =>
      obtain ⟨a, hx, ha⟩ := hform x (List.mem_cons_self x at2)
      have hlen2 : at2.length = pt.length := by simpa using hlen
      have hform2 : ∀ y ∈ at2, ∃ b, y = [b] ∧ ' ' ∉ b :=
        fun y hy => hform y (List.mem_cons_of_mem x hy)
      obtain ⟨ih1, ih2, ih3, ih4, ih5⟩ := ih at2 hlen2 hform2
      subst hx
      have hrow : joinSp (p :: [a]) = p ++ ' ' :: a := joinSp_pair p a
      have hsplit : splitSp (p ++ ' ' :: a) = splitSp p ++ [a] := by
        unfold splitSp
        rw [splitOnCh_append_sep, splitOnCh_no_sep _ _ ha]
      have hhd : (splitSp p).head? = some ((splitSp p).headD []) := by
        cases hsp : splitSp p with
        | nil => exact absurd hsp (splitOnCh_ne_nil ' ' p)
        | cons h t => rfl
      have hzc : ((p :: pt).zip ([a] :: at2)) = (p, [a]) :: pt.zip at2 := rfl
      rw [hzc]
      refine ⟨?_, ?_, ?_, ?_, ?_⟩
      · simp only [List.map_cons]
        rw [hrow, hsplit]
        unfold currentPaths
        rw [List.dropLast_concat, hhd]
        rw [ih1]
        rfl
      · simp only [List.map_cons]
        rw [hrow, hsplit, lastOne_concat, ih2]
      · simp only [List.map_cons]
        intro hm
        rcases List.mem_cons.mp hm with h1 | h2
        · rw [hrow] at h1
          cases p <;> cases h1
        · exact ih3 h2
      · simp only [List.map_cons, List.length_cons]
        rw [ih4]
      · intro hns
        have hp : ' ' ∉ p := hns p (List.mem_cons_self p pt)
        have hsp : splitSp p = [p] := splitOnCh_no_sep ' ' p hp
        simp only [List.map_cons, hsp]
        rw [ih5 (fun q hq => hns q (List.mem_cons_of_mem p hq))]
        rfl

/-- C6 (amended): patch idempotence at the level of file content. After a
successful `update_video_filenames` call, a second call with the same
`new_paths` never changes the file content and never raises; and whenever
every new path is free of space characters, the second call detects that
the recorded paths already equal `new_paths` and performs no write. (When
a new path contains a space, the second call re-splits the written row,
reads back only the path's first token, misses the equality check and
performs a second — content-identical — write; see the counterexample.) -/
theorem c6_patch_idempotent (lines paths c1 : List Str) (w1 : Bool)
    (h : update_video_filenames lines paths = ⟨c1, w1, none⟩) :
    (update_video_filenames c1 paths).content = c1 ∧
    (update_video_filenames c1 paths).err = none ∧
    ((∀ p ∈ paths, ' ' ∉ p) → (update_video_filenames c1 paths).wrote = false) := by
  obtain ⟨hsig, s, e, cur, hb, hcount, hcur, hcase⟩ := update_ok_inversion _ _ _ _ h
  rcases hcase with ⟨hceq, rfl, rfl⟩ | ⟨hcne, rfl, rfl⟩
  · have hnoop := update_noop_of_paths_eq hsig hb hcount (hceq ▸ hcur)
    rw [hnoop]
    exact ⟨rfl, rfl, fun _ => rfl⟩
  · obtain ⟨h1s, hse, hsl, hdecomp, hAnb, hRnb, hrlen, hdropE, hAlen⟩ :=
      blockBounds_decomp lines s e hb
    have hform : ∀ x ∈ ((rowSlice lines s e).map splitSp).map lastOne,
        ∃ a, x = [a] ∧ ' ' ∉ a := by
      intro x hx
      rcases List.mem_map.mp hx with ⟨sp, hsp, rfl⟩
      rcases List.mem_map.mp hsp with ⟨r, hr, rfl⟩
      refine ⟨(splitSp r).getLast (splitOnCh_ne_nil ' ' r),
        lastOne_eq_getLast _ (splitOnCh_ne_nil ' ' r), ?_⟩
      exact mem_splitOnCh_not_sep ' ' r _ (List.getLast_mem _)
    have hlen_as : (((rowSlice lines s e).map splitSp).map lastOne).length
        = paths.length := by
      simp only [List.length_map]
      rw [hrlen, hcount]
    obtain ⟨S1, S2, S3, S4, S5⟩ :=
      rewritten_rows_spec paths (((rowSlice lines s e).map splitSp).map lastOne)
        hlen_as hform
    set NR := (paths.zip (((rowSlice lines s e).map splitSp).map lastOne)).map
      (fun pa => joinSp (pa.1 :: pa.2)) with hNR
    have hAne : lines.take (s - 1) ≠ [] := by
      intro h0
      have hhd : lines.head? = some [] := by
        conv_lhs => rw [hdecomp]
        rw [h0]
        rfl
      unfold sigOk at hsig
      rw [hhd] at hsig
      dsimp only at hsig
      exact absurd hsig (by decide)
    have htake : lines.take s = lines.take (s - 1) ++ [[]] := by
      have ht := take_construct (lines.take (s - 1)) (rowSlice lines s e)
        (lines.drop (e + 1))
      rw [hAlen] at ht
      have e1 : s - 1 + 1 = s := by omega
      rw [e1] at ht
      conv_lhs => rw [hdecomp]
      exact ht
    have hc1form : lines.take s ++ NR ++ lines.drop e
        = lines.take (s - 1) ++ [] :: (NR ++ [] :: lines.drop (e + 1)) := by
      rw [htake, hdropE]
      simp [List.append_assoc]
    have hb2 : blockBounds (lines.take s ++ NR ++ lines.drop e) = some (s, e) := by
      rw [hc1form, blockBounds_construct _ _ _ hAnb S3, hAlen, S4]
      have e1 : s - 1 + 1 = s := by omega
      rw [e1]
      have e2 : s + paths.length = e := by omega
      rw [e2]
    have hslice2 : rowSlice (lines.take s ++ NR ++ lines.drop e) s e = NR := by
      rw [hc1form]
      have hrc := rowSlice_construct (lines.take (s - 1)) NR (lines.drop (e + 1))
      rw [hAlen, S4] at hrc
      have e1 : s - 1 + 1 = s := by omega
      rw [e1] at hrc
      have e2 : s + paths.length = e := by omega
      rw [e2] at hrc
      exact hrc
    have hsig2 : sigOk (lines.take s ++ NR ++ lines.drop e) = true := by
      have hh : (lines.take s ++ NR ++ lines.drop e).head? = lines.head? := by
        rw [htake]
        cases hA : lines.take (s - 1) with
        | nil => exact absurd hA hAne
        | cons a t2 =>
          have hla : lines.head? = some a := by
            conv_lhs => rw [hdecomp]
            rw [hA]
            rfl
          rw [hla]
          rfl
      unfold sigOk
      unfold sigOk at hsig
      rw [hh]
      exact hsig
    have hcur2 : currentPaths
        ((rowSlice (lines.take s ++ NR ++ lines.drop e) s e).map splitSp)
        = some ((paths.zip (((rowSlice lines s e).map splitSp).map lastOne)).map
            (fun pa => (splitSp pa.1).headD [])) := by
      rw [hslice2]
      exact S1
    by_cases hq : (paths.zip (((rowSlice lines s e).map splitSp).map lastOne)).map
        (fun pa => (splitSp pa.1).headD []) = paths
    · have hnoop := update_noop_of_paths_eq hsig2 hb2 hcount (hq ▸ hcur2)
      rw [hnoop]
      exact ⟨rfl, rfl, fun _ => rfl⟩
    · have hwrite := update_write_eval _ paths s e _ hsig2 hb2 hcount hcur2 hq
      have hdrop2 : (lines.take s ++ NR ++ lines.drop e).drop e = lines.drop e := by
        rw [hc1form]
        have hdc := drop_end_construct (lines.take (s - 1)) NR (lines.drop (e + 1))
        rw [hAlen, S4] at hdc
        have e1 : s - 1 + 1 = s := by omega
        rw [e1] at hdc
        have e2 : s + paths.length = e := by omega
        rw [e2] at hdc
        rw [hdc, hdropE]
      have htake2 : (lines.take s ++ NR ++ lines.drop e).take s = lines.take s := by
        conv_lhs => rw [List.append_assoc]
        refine List.take_left' ?_
        rw [List.length_take]
        omega
      have hrows2 : (paths.zip
            (((rowSlice (lines.take s ++ NR ++ lines.drop e) s e).map splitSp).map
              lastOne)).map (fun pa => joinSp (pa.1 :: pa.2)) = NR := by
        rw [hslice2, S2]
      rw [hwrite]
      refine ⟨?_, rfl, ?_⟩
      · show (lines.take s ++ NR ++ lines.drop e).take s ++ _ ++
            (lines.take s ++ NR ++ lines.drop e).drop e = _
        rw [htake2, hdrop2, hrows2]
      · intro hns
        exact absurd (S5 hns) hq

/-! ## Concrete index files used by witnesses and counterexamples -/

/-- A small but complete index file for a joined index of two sources with
declared sizes 1000 and 1500: signature, file list, header, frame block
(one frame at cursor 0, one at exactly the 1000 boundary, one at 2400),
and footer. -/
def exIndexFile : List Str :=
  ["DGIndexNV 2.0.0.0".data, [],
   "f1.m2ts 1000".data, "f2.m2ts 1500".data, [],
   "DEVICE 0".data, "ASPECT 16 9".data, [],
   "SEQ 0".data, "0: I 1".data,
   "SEQ 1000".data, "1: B 2".data,
   "SEQ 2400".data, "2: P 3".data, [],
   "FILM 10.5%".data, "ORDER 0".data, "PLAYBACK 3".data, "CODED 3".data]

/-- `exIndexFile` with the file-list block truncated to a single row
(the second row, at index 3, removed). -/
def exTruncatedFile : List Str := exIndexFile.eraseIdx 3

/-- A complete index file whose header declares a degenerate `ASPECT 0 0`. -/
def exZeroAspectFile : List Str :=
  ["DGIndexNV 2.0.0.0".data, [],
   "f1.m2ts 1000".data, [],
   "ASPECT 0 0".data, [],
   "SEQ 0".data, "0: I 1".data, [],
   "CODED 1".data]

/-- An index file whose second source has declared size 0, with a frame
record exactly at the boundary cursor 5. -/
def exZeroSizeFile : List Str :=
  ["DGIndexNV 2.0.0.0".data, [],
   "f1.m2ts 5".data, "f2.m2ts 0".data, [],
   "DEVICE 0".data, [],
   "SEQ 5".data, "3: P 1".data, [],
   "CODED 1".data]

/-! ## Claim theorems -/

/-- C4: the identity hash of `index()` is order-invariant: any permutation
of the requested file set is deduplicated and sorted to the same list, so
`get_videos_hash` receives the same argument. -/
theorem c4_identity_hash_order_invariance (hash : List Str → Nat)
    (files1 files2 : List Str) (hp : files1.Perm files2) :
    identityHash hash files1 = identityHash hash files2 := by
  have hd : files1.dedup.Perm files2.dedup := hp.dedup
  have hs : sortedSet files1 = sortedSet files2 :=
    List.eq_of_perm_of_sorted
      (((List.perm_insertionSort _ _).trans hd).trans
        (List.perm_insertionSort _ _).symm)
      (List.sorted_insertionSort _ _) (List.sorted_insertionSort _ _)
  unfold identityHash
  rw [hs]

theorem c4_witness :
    identityHash List.length ["b".data, "a".data]
      = identityHash List.length ["a".data, "b".data] :=
  c4_identity_hash_order_invariance List.length _ _ (List.Perm.swap "a".data "b".data [])

/-- C5: whenever the file-list block's row count differs from the number
of new paths, `update_video_filenames` fails with the corruption error and
the file content is left entirely unchanged (`wrote = false` and the
resulting content is the input content: the single `write_lines` call of
the method is never reached). -/
theorem c5_row_count_mismatch_atomic (lines paths : List Str) (s e : Nat)
    (hb : blockBounds lines = some (s, e)) (hne : e - s ≠ paths.length) :
    update_video_filenames lines paths = ⟨lines, false, some .corrupted⟩ :=
  update_corrupted_of_count hb hne

theorem c5_witness :
    update_video_filenames
      ["DGIndexNV 1.0".data, [], "old 100".data, [], "X".data]
      ["a".data, "b".data]
    = ⟨["DGIndexNV 1.0".data, [], "old 100".data, [], "X".data], false,
        some .corrupted⟩ :=
  c5_row_count_mismatch_atomic _ _ 2 3 (by decide) (by decide)

/-- C1, counterexample to the claim as stated: the window is closed, not
half-open. On `exIndexFile` (declared sizes `[1000, 1500]`), parsing
`file_idx = 0` returns the record governed by the `SEQ 1000` marker (the
`B`-typed record, which only occurs after it), because the scan only stops
when the cursor strictly exceeds 1000 — so file 0's result is not limited
to records with sector `< 1000` (the same boundary record also belongs to
file 1's result). -/
theorem c1_counterexample :
    sectorWindow [1000, 1500] 0 = .ok (0, 1000) ∧
    frameScanSec 0 1000
      ["SEQ 0".data, "0: I 1".data, "SEQ 1000".data, "1: B 2".data,
        "SEQ 2400".data, "2: P 3".data] 0
      = .ok [(0, ⟨3, "I".data, none, none⟩), (1000, ⟨4, "B".data, none, none⟩)] ∧
    ¬ ((1000 : Int) < 1000) ∧
    (get_info "x.dgi".data exIndexFile 0 false).map (fun r => r.1.frame_data)
      = .ok [⟨3, "I".data, none, none⟩, ⟨4, "B".data, none, none⟩] := by
  exact ⟨by decide, by decide, by decide, by decide⟩

/-- C1 (amended): windowing correctness with *closed* windows. For a
joined index (blank-separated signature, file list, header and frame
blocks), an in-range `file_idx = i`, and a frame block whose per-line
cursors are non-decreasing and fully parseable, `get_info` succeeds and
returns exactly the frame records whose governing cursor lies in
`[cumulative_size(0..i), cumulative_size(0..i+1)]` — both endpoints
included, so a record sitting exactly on a boundary belongs to both
adjacent files. -/
theorem c1_closed_windowing (path : Str) (debug : Bool)
    (sig rows hdr rest : List Str) (l0 : Str) (i : Nat) (sizes : List Int)
    (header : DGIndexHeader) (warns : Nat) (ftr : DGIndexFooter)
    (cands : List (Int × DGIndexFrameData)) (cs : List Int)
    (hs1 : [] ∉ sig) (hs2 : sig.head? = some l0)
    (hs3 : strContainsB l0 dgTok = true)
    (hr : [] ∉ rows) (hh : [] ∉ hdr)
    (hsizes : parseVideoSizes rows = .ok sizes)
    (hidx : i < sizes.length)
    (hheader : parseHeader debug hdr = .ok (header, warns))
    (hcands : frameCandidates rest 0 = .ok cands)
    (hcs : lineCursors rest 0 = .ok cs)
    (hmono : cs.Chain' (fun a b => a ≤ b))
    (hfoot : parseFooter rest = .ok ftr) :
    get_info path (sig ++ ([] :: (rows ++ ([] :: (hdr ++ ([] :: rest))))))
      (i : Int) debug
      = .ok (⟨path, (i : Int), header,
          ((cands.filter
              (inWindow ((sizes.take i).sum) ((sizes.take (i + 1)).sum))).map
            Prod.snd), ftr⟩, warns) := by
  obtain ⟨t, rfl⟩ : ∃ t, sig = l0 :: t := by
    cases sig with
    | nil => cases hs2
    | cons a t =>
      refine ⟨t, ?_⟩
      have : a = l0 := by
        simpa using hs2
      rw [this]
  unfold get_info
  rw [splitLines_append _ _ hs1]
  simp only [except_bind_ok]
  have hidx0 : pyIdxE (l0 :: t) 0 = .ok l0 := rfl
  rw [hidx0]
  simp only [except_bind_ok, hs3]
  norm_num
  rw [splitLines_append _ _ hr]
  simp only [except_bind_ok]
  rw [splitLines_append _ _ hh]
  simp only [except_bind_ok]
  rw [hheader]
  simp only [except_bind_ok]
  rw [hsizes]
  simp only [except_bind_ok]
  rw [sectorWindow_nat sizes i hidx]
  simp only [except_bind_ok]
  rw [frameScan_eq_sec,
    frameScanSec_eq_filter _ _ _ _ _ _ hcands hcs hmono]
  simp only [except_map_ok, except_bind_ok]
  rw [hfoot]
  simp only [except_bind_ok, except_pure_eq]

theorem c1_witness :
    get_info "x.dgi".data exIndexFile (1 : Nat) false
      = .ok (⟨"x.dgi".data, (1 : Nat), { device := 0, aspect := Rat.divInt 16 9 },
          [⟨4, "B".data, none, none⟩, ⟨5, "P".data, none, none⟩],
          ⟨mkRat 21 2, 3, 3, 0⟩⟩, 0) := by
  have h := c1_closed_windowing "x.dgi".data false
    ["DGIndexNV 2.0.0.0".data] ["f1.m2ts 1000".data, "f2.m2ts 1500".data]
    ["DEVICE 0".data, "ASPECT 16 9".data]
    ["SEQ 0".data, "0: I 1".data, "SEQ 1000".data, "1: B 2".data,
      "SEQ 2400".data, "2: P 3".data, [],
      "FILM 10.5%".data, "ORDER 0".data, "PLAYBACK 3".data, "CODED 3".data]
    "DGIndexNV 2.0.0.0".data 1 [1000, 1500]
    { device := 0, aspect := Rat.divInt 16 9 } 0 ⟨mkRat 21 2, 3, 3, 0⟩
    [(0, ⟨3, "I".data, none, none⟩), (1000, ⟨4, "B".data, none, none⟩),
      (2400, ⟨5, "P".data, none, none⟩)]
    [0, 0, 1000, 1000, 2400, 2400]
    (by decide) (by decide) (by decide) (by decide) (by decide) (by decide)
    (by decide) (by decide) (by decide) (by decide)
    (by norm_num [List.chain'_cons, List.chain'_singleton]) (by decide)
  have he : exIndexFile
      = ["DGIndexNV 2.0.0.0".data] ++
          ([] :: (["f1.m2ts 1000".data, "f2.m2ts 1500".data] ++
            ([] :: (["DEVICE 0".data, "ASPECT 16 9".data] ++
              ([] :: ["SEQ 0".data, "0: I 1".data, "SEQ 1000".data,
                "1: B 2".data, "SEQ 2400".data, "2: P 3".data, [],
                "FILM 10.5%".data, "ORDER 0".data, "PLAYBACK 3".data,
                "CODED 3".data]))))) := by decide
  rw [he]
  convert h using 2

/-- C2, counterexample to the claim as stated: `get_info` itself performs
no row-count validation — it cannot, since it is not told how many input
files the index was built for. Parsing the truncated index (file list cut
from two rows to one) succeeds and returns frame records, instead of
failing with the corruption error. -/
theorem c2_counterexample :
    exTruncatedFile = exIndexFile.eraseIdx 3 ∧
    (get_info "x.dgi".data exTruncatedFile 0 false).map (fun r => r.1.frame_data)
      = .ok [⟨3, "I".data, none, none⟩, ⟨4, "B".data, none, none⟩] := by
  constructor
  · rfl
  · decide

/-- C2 (amended): the row-count corruption check lives in
`update_video_filenames`, not in `get_info`: a file-list block with fewer
rows than the paths the index is being updated for makes the patcher raise
the corruption error, with the file content left unchanged — never a
silent partial result. -/
theorem c2_truncation_detected_by_patcher (lines paths : List Str) (s e : Nat)
    (hb : blockBounds lines = some (s, e)) (hlt : e - s < paths.length) :
    update_video_filenames lines paths = ⟨lines, false, some .corrupted⟩ :=
  update_corrupted_of_count hb (Nat.ne_of_lt hlt)

theorem c2_witness :
    update_video_filenames
      ["DGIndexNV 2.0.0.0".data, [], "f1.m2ts 1000".data, [], "Y".data]
      ["f1.m2ts".data, "f2.m2ts".data]
    = ⟨["DGIndexNV 2.0.0.0".data, [], "f1.m2ts 1000".data, [], "Y".data],
        false, some .corrupted⟩ :=
  c2_truncation_detected_by_patcher _ _ 2 3 (by decide) (by decide)

/-- C3: when the target index file exists, is non-empty and `force` is
false, `index()` resolves to the in-place patcher — the external indexing
tool is invoked zero times — and, the recorded paths being equal to the
requested (sorted) paths, that patcher call is a no-op: no write, no
error, content unchanged. -/
theorem c3_cache_reuse_no_tool (outputSize : Nat) (files lines : List Str)
    (s e : Nat) (hsz : outputSize ≠ 0) (hsig : sigOk lines = true)
    (hb : blockBounds lines = some (s, e))
    (hcount : e - s = (sortedSet files).length)
    (hcur : currentPaths ((rowSlice lines s e).map splitSp)
      = some (sortedSet files)) :
    indexJoined true outputSize false files = .patcher (sortedSet files) ∧
    update_video_filenames lines (sortedSet files) = ⟨lines, false, none⟩ := by
  constructor
  · unfold indexJoined indexOne
    simp [hsz]
  · exact update_noop_of_paths_eq hsig hb hcount hcur

theorem c3_witness :
    indexJoined true 5 false ["b.m2ts".data, "a.m2ts".data]
      = .patcher ["a.m2ts".data, "b.m2ts".data] ∧
    update_video_filenames
      ["DGIndexNV 1.0".data, [], "a.m2ts 10".data, "b.m2ts 20".data, [], "X".data]
      (sortedSet ["b.m2ts".data, "a.m2ts".data])
    = ⟨["DGIndexNV 1.0".data, [], "a.m2ts 10".data, "b.m2ts 20".data, [], "X".data],
        false, none⟩ := by
  have h := c3_cache_reuse_no_tool 5 ["b.m2ts".data, "a.m2ts".data]
    ["DGIndexNV 1.0".data, [], "a.m2ts 10".data, "b.m2ts 20".data, [], "X".data]
    2 4 (by decide) (by decide) (by decide) (by decide) (by decide)
  exact ⟨by rw [h.1]; decide, h.2⟩

/-- C6, counterexample to the claim as stated: with a new path containing
a space (`"a b"`), the second call with the same `new_paths` performs a
second write (`wrote = true`): re-splitting the written row `"a b 100"`
yields recorded path `"a"`, which does not equal `"a b"`. The content is
nevertheless unchanged. So "at most one write / the second call is a
no-op" is false in general. -/
theorem c6_counterexample :
    update_video_filenames
      ["DGIndexNV 1.0".data, [], "old 100".data, [], "X".data] ["a b".data]
      = ⟨["DGIndexNV 1.0".data, [], "a b 100".data, [], "X".data], true, none⟩ ∧
    update_video_filenames
      ["DGIndexNV 1.0".data, [], "a b 100".data, [], "X".data] ["a b".data]
      = ⟨["DGIndexNV 1.0".data, [], "a b 100".data, [], "X".data], true, none⟩ := by
  exact ⟨by decide, by decide⟩

theorem c6_witness :
    (update_video_filenames
        ["DGIndexNV 1.0".data, [], "new 100".data, [], "X".data]
        ["new".data]).content
      = ["DGIndexNV 1.0".data, [], "new 100".data, [], "X".data] ∧
    (update_video_filenames
        ["DGIndexNV 1.0".data, [], "new 100".data, [], "X".data]
        ["new".data]).err = none ∧
    (update_video_filenames
        ["DGIndexNV 1.0".data, [], "new 100".data, [], "X".data]
        ["new".data]).wrote = false := by
  have h := c6_patch_idempotent
    ["DGIndexNV 1.0".data, [], "old 100".data, [], "X".data] ["new".data]
    ["DGIndexNV 1.0".data, [], "new 100".data, [], "X".data] true (by decide)
  exact ⟨h.1, h.2.1, h.2.2 (by decide)⟩

/-- C8, counterexample to the claim as stated: a row with a middle
trailing argument (`"old a1 42"`) is rewritten to `"new 42"`: only the
last token survives, the argument `"a1"` is not preserved verbatim — it
does not occur in the rewritten line at all. -/
theorem c8_counterexample :
    update_video_filenames
      ["DGIndexNV 1.0".data, [], "old a1 42".data, [], "X".data] ["new".data]
      = ⟨["DGIndexNV 1.0".data, [], "new 42".data, [], "X".data], true, none⟩ ∧
    strContainsB "new 42".data "a1".data = false := by
  exact ⟨by decide, by decide⟩

/-- C8 (amended): the per-row rewrite of `update_video_filenames` —
`' '.join([path, *args])` with `args = line[-1:]` and
`line = row.split(' ')` — keeps, of the original row, only its *last*
whitespace-delimited token (the declared size): the rewritten row is
exactly `new_path ++ ' ' ++ last_token`. Any tokens between the leading
path and the declared size are dropped, not preserved. -/
theorem c8_row_rewrite_last_token_only (p r : Str) :
    joinSp (p :: lastOne (splitSp r))
      = p ++ ' ' :: (splitSp r).getLast (splitOnCh_ne_nil ' ' r) := by
  rw [lastOne_eq_getLast (splitSp r) (splitOnCh_ne_nil ' ' r)]
  exact joinSp_pair p _

/-- C7, counterexample to the claim as stated: parsing a header with
`ASPECT 0 0` while the `VSSOURCE_DEBUG` environment variable is unset (the
default) yields aspect `1/1` but prints zero warnings, not exactly one —
the `print(ResourceWarning(...))` is guarded by the environment lookup. -/
theorem c7_counterexample :
    (get_info "x.dgi".data exZeroAspectFile 0 false).map
      (fun r => (r.1.header.aspect, r.2))
    = .ok ((1 : Rat), (0 : Nat)) ∧ (0 : Nat) ≠ 1 := by
  constructor
  · decide
  · decide

/-- C7 (amended): a header `ASPECT` line whose integer values make
`Fraction` raise `ZeroDivisionError` (e.g. `ASPECT 0 0`) is never an
error: the aspect is set to `1/1`, and exactly one warning is printed for
it when the `VSSOURCE_DEBUG` environment variable is set — zero warnings
otherwise. -/
theorem c7_zero_aspect_fallback (debug : Bool) (st : DGIndexHeader × Nat)
    (rlin : Str) (ns : List Int)
    (hk : upperStr ((splitSp (rstrip rlin)).headD []) = "ASPECT".data)
    (hv : (splitSp (rstrip rlin)).tail.mapM parseInt = some ns)
    (hz : pyFraction ns = .error .zeroDivision) :
    applyHeaderLine debug st rlin
      = .ok ({st.1 with aspect := 1}, if debug then st.2 + 1 else st.2) := by
  unfold applyHeaderLine
  show headerDispatch debug st (upperStr ((splitSp (rstrip rlin)).headD []))
      (splitSp (rstrip rlin)).tail = _
  rw [hk]
  unfold headerDispatch mapIntsE
  rw [if_neg (by decide), if_neg (by decide), if_neg (by decide),
      if_neg (by decide), if_neg (by decide), if_neg (by decide), if_pos rfl,
      hv]
  show Except.bind (Except.ok ns) _ = _
  rw [Except.bind, hz]

theorem c7_witness :
    applyHeaderLine true ({}, 0) "ASPECT 0 0".data
      = .ok ({ aspect := 1 }, 1) :=
  c7_zero_aspect_fallback true ({}, 0) "ASPECT 0 0".data [0, 0]
    (by decide) (by decide) (by decide)

/-- C9, counterexample to the claim as stated: a declared size of 0 does
not give an empty window. For sizes `[5, 0]` and `file_idx = 1` the window
is the closed single point `[5, 5]`, and an index whose frame block has a
`SEQ 5` marker yields a non-empty record list for file 1. -/
theorem c9_counterexample :
    (get_info "x.dgi".data exZeroSizeFile 1 false).map (fun r => r.1.frame_data)
      = .ok [⟨3, "P".data, none, none⟩] ∧
    [(⟨3, "P".data, none, none⟩ : DGIndexFrameData)] ≠ [] := by
  exact ⟨by decide, by decide⟩

/-- C9 (amended): a declared size of 0 for file `i` gives the degenerate
single-point window `[c, c]` with `c` the cumulative size through file
`i`, not an empty one: the parse succeeds but every returned record's
governing cursor equals exactly `c` (so the result is empty unless a `SEQ`
marker hits the boundary exactly). -/
theorem c9_zero_size_single_point_window (sizes : List Int) (i : Nat)
    (h : i < sizes.length) (h0 : sizes.get ⟨i, h⟩ = 0)
    (block : List Str) (l : List (Int × DGIndexFrameData))
    (hscan : frameScanSec ((sizes.take (i + 1)).sum) ((sizes.take (i + 1)).sum)
      block 0 = .ok l) :
    sectorWindow sizes (i : Int)
      = .ok ((sizes.take (i + 1)).sum, (sizes.take (i + 1)).sum) ∧
    ∀ p ∈ l, p.1 = (sizes.take (i + 1)).sum := by
  have htake : (sizes.take (i + 1)).sum = (sizes.take i).sum := by
    rw [List.sum_take_succ _ _ h]
    have : sizes[i] = sizes.get ⟨i, h⟩ := rfl
    rw [this, h0, add_zero]
  constructor
  · rw [sectorWindow_nat sizes i h, htake]
  · intro p hp
    have hs := frameScanSec_sound _ _ _ _ _ hscan p hp
    omega

theorem c9_witness :
    sectorWindow [5, 0] 1 = .ok (5, 5) ∧
    ((5 : Int), (⟨3, "P".data, none, none⟩ : DGIndexFrameData)).1 = 5 := by
  have h := c9_zero_size_single_point_window [5, 0] 1 (by decide) (by decide)
    ["SEQ 5".data, "3: P 1".data] [(5, ⟨3, "P".data, none, none⟩)] (by decide)
  exact ⟨h.1, h.2 _ (by simp)⟩

/-- C10, counterexample to the claim as stated: with declared sizes
`[1000, 1500]`, the default `file_idx = -1` computes the window
`[-1500, 0]`, not the last file's window `[1000, 2500]`; parsing
`exIndexFile` with the default returns only the cursor-0 record, while the
last file's records (those of `file_idx = 1`) are different. -/
theorem c10_counterexample :
    sectorWindow [1000, 1500] (-1) = .ok (-1500, 0) ∧
    ((-1500 : Int), (0 : Int)) ≠ ((1000 : Int), (2500 : Int)) ∧
    (get_info "x.dgi".data exIndexFile (-1) false).map (fun r => r.1.frame_data)
      = .ok [⟨3, "I".data, none, none⟩] ∧
    (get_info "x.dgi".data exIndexFile 1 false).map (fun r => r.1.frame_data)
      = .ok [⟨4, "B".data, none, none⟩, ⟨5, "P".data, none, none⟩] := by
  exact ⟨by decide, by decide, by decide, by decide⟩

/-- C10 (corrected): for the default `file_idx = -1` the computed window
is `[-last_declared_size, 0]` — `max_sector` is the sum of the empty slice
`video_sizes[:0]`, i.e. 0 — so a caller omitting `file_idx` receives only
records whose governing cursor lies in `[-last, 0]` (with the format's
nonnegative cursors: only the records before the first positive `SEQ`
marker), not the last file's window. -/
theorem c10_default_idx_window (sizes : List Int) (h : sizes ≠ [])
    (block : List Str) (l : List (Int × DGIndexFrameData))
    (hscan : frameScanSec (-(sizes.getLast h)) 0 block 0 = .ok l) :
    sectorWindow sizes (-1) = .ok (-(sizes.getLast h), 0) ∧
    ∀ p ∈ l, -(sizes.getLast h) ≤ p.1 ∧ p.1 ≤ 0 :=
  ⟨sectorWindow_neg_one sizes h,
    fun p hp => frameScanSec_sound _ _ _ _ _ hscan p hp⟩

theorem c10_witness :
    sectorWindow [1000, 1500] (-1) = .ok (-1500, 0) ∧
    (-(1500 : Int) ≤ 0 ∧ (0 : Int) ≤ 0) := by
  have h := c10_default_idx_window [1000, 1500] (by decide)
    ["SEQ 0".data, "0: I 1".data] [(0, ⟨3, "I".data, none, none⟩)] (by decide)
  exact ⟨h.1, by
    have h2 := h.2 (0, ⟨3, "I".data, none, none⟩) (by simp)
    exact ⟨by norm_num, h2.2⟩⟩

end DG

